import Mathlib

/-!
Verification of the apytizer endpoint / caching / transport core.

Shallow embedding of the Python sources under `src/apytizer/`:
- `endpoints/composite_endpoint.py` (`CompositeEndpoint`, `_Children`)
- `endpoints/base_endpoint.py` (`BaseEndpoint`)
- `apis/base_api.py` (`BaseAPI`)
- `utils/caches.py` and `decorators/caching.py` (cache keys, `cache_response`)
- `decorators/connection.py` (`confirm_connection`)
- `adapters/transport_adapter.py` (`TransportAdapter`, `make_retry`)
- `utils/mappings.py` (`merge`)

Mutable endpoint objects are modelled as an explicit heap (`TState`) from
object ids (`Nat`) to records; Python attribute mutation becomes functional
state update (new bindings are consed in front, lookups take the first hit).
Recursion through parent links, which Python performs unboundedly on each
access of the `path` property, takes an explicit fuel argument.
-/

namespace Apytizer

/-- Python `str.strip("/")`: removes every leading and trailing `'/'`
character, used by the `path` setters of `BaseEndpoint` and
`CompositeEndpoint` (`self._path = path.strip("/")`). -/
def stripSlashes (s : String) : String :=
  String.mk (((s.data.dropWhile (fun c => c == '/')).reverse.dropWhile
    (fun c => c == '/')).reverse)

/-- Python `url.endswith("/")`, which for the one-character suffix `"/"` holds
exactly when the last character is `'/'` (used by the `BaseAPI.url` setter). -/
def endswithSlash (s : String) : Bool :=
  s.data.getLast? == some '/'

/-- Python `url.startswith("/")`: the first character is `'/'`. -/
def startswithSlash (s : String) : Bool :=
  s.data.head? == some '/'

/-- A Python `CompositeEndpoint` object: its stored path segment
(`self._path`) and its parent reference (`self._parent`), an id into the
heap or `none` when detached. -/
structure PyEndpoint where
  seg : String
  par : Option Nat
deriving DecidableEq, Repr

/-- Heap of endpoint objects.  `nodes` maps object ids to endpoint records,
`kids` maps an endpoint id to the contents of its `_Children._endpoints`
set, and `next` is the first unused object id. -/
structure TState where
  nodes : List (Nat × PyEndpoint)
  kids : List (Nat × List Nat)
  next : Nat
deriving DecidableEq, Repr

/-- First-hit association-list lookup (the heap read primitive). -/
def alookup {α : Type} : List (Nat × α) → Nat → Option α
  | [], _ => none
  | (k, v) :: rest, i => if k = i then some v else alookup rest i

/-- The `_path` attribute of object `i` (empty for a dangling id). -/
def segOf (s : TState) (i : Nat) : String :=
  ((alookup s.nodes i).map PyEndpoint.seg).getD ""

/-- The `_parent` attribute of object `i`. -/
def parOf (s : TState) (i : Nat) : Option Nat :=
  (alookup s.nodes i).bind PyEndpoint.par

/-- The contents of the `_Children._endpoints` set of object `p`. -/
def kidsOf (s : TState) (p : Nat) : List Nat :=
  (alookup s.kids p).getD []

/-- `CompositeEndpoint.path` combined with `AbstractEndpoint.__str__`:
`f"{self.parent!s}/{self._path!s}" if self.parent is not None else
self._path`, where `str(parent)` is again `parent.path`.  The Python
property recurses through parent links on every access; the model bounds
that recursion by `fuel`. -/
def pathOf (s : TState) : Nat → Nat → String
  | 0, i => segOf s i
  | fuel + 1, i =>
    match parOf s i with
    | none => segOf s i
    | some p => pathOf s fuel p ++ "/" ++ segOf s i

/-- The `parent` property setter of `CompositeEndpoint`:
`self._parent = parent`. -/
def setParent (s : TState) (c q : Nat) : TState :=
  let rec0 := (alookup s.nodes c).getD ⟨"", none⟩
  { s with nodes := (c, { rec0 with par := some q }) :: s.nodes }

/-- The `parent` property deleter of `CompositeEndpoint`:
`self._parent = None`. -/
def delParent (s : TState) (c : Nat) : TState :=
  let rec0 := (alookup s.nodes c).getD ⟨"", none⟩
  { s with nodes := (c, { rec0 with par := none }) :: s.nodes }

/-- `_Children.get`: `next(child for child in self._endpoints if
child.name == ref)`, returning `None` when the generator is exhausted.
`child.name` is the child's stored segment `_path`. -/
def childrenGet (s : TState) (p : Nat) (ref : String) : Option Nat :=
  (kidsOf s p).find? (fun c => segOf s c == ref)

/-- `_Children.add`: first `__child.parent = self.context`, then
`self._endpoints.add(__child)`.  The Python `set` deduplicates by
`CompositeEndpoint.__eq__`, i.e. by equality of full `path` strings, so the
insertion is a no-op as soon as some member is path-equal to the argument. -/
def childrenAdd (s : TState) (fuel p c : Nat) : TState :=
  let s1 := setParent s c p
  if (kidsOf s1 p).any (fun m => pathOf s1 fuel m == pathOf s1 fuel c)
  then s1
  else { s1 with kids := (p, c :: kidsOf s1 p) :: s1.kids }

/-- `CompositeEndpoint._make_child`: construct
`CompositeEndpoint(self.api, name)` (a fresh object whose stored segment is
`name.strip("/")` and whose parent is `None`), then `self._add_child`,
which is `self.children.add`.  Returns the updated heap and the id of the
fresh object, which Python returns whether or not the set kept it. -/
def makeChild (s : TState) (fuel p : Nat) (name : String) : TState × Nat :=
  let n := s.next
  let s1 : TState :=
    { nodes := (n, ⟨stripSlashes name, none⟩) :: s.nodes,
      kids := (n, []) :: s.kids,
      next := n + 1 }
  (childrenAdd s1 fuel p n, n)

/-- `CompositeEndpoint._get_child`:
`self.children.get(name) or self._make_child(name)` (endpoint objects are
always truthy, so `or` only tests for `None`). -/
def getChild (s : TState) (fuel p : Nat) (name : String) : TState × Nat :=
  match childrenGet s p name with
  | some c => (s, c)
  | none => makeChild s fuel p name

/-- The effect of `self._endpoints.discard(__child)` on the child set:
erase the (first) member that is `__eq__`-equal, i.e. path-equal, to the
argument; no error when no member matches. -/
def childrenErase (s : TState) (fuel p c : Nat) : TState :=
  { s with kids :=
      (p, (kidsOf s p).eraseP
        (fun m => pathOf s fuel m == pathOf s fuel c)) :: s.kids }

/-- `_Children.discard`: `self._endpoints.discard(__child)` (set removal by
`__eq__`, i.e. by path equality, no error when absent), then
`if __child.parent is self.context: del __child.parent`.  The `is` test is
object identity, which the model renders as id equality. -/
def childrenDiscard (s : TState) (fuel p c : Nat) : TState :=
  if parOf (childrenErase s fuel p c) c = some p
  then delParent (childrenErase s fuel p c) c
  else childrenErase s fuel p c

/-- `_Children.remove`: `self._endpoints.remove(__child)` raises `KeyError`
(modelled as `none`) when no member is equal (path-equal) to the argument;
on success it then unconditionally runs `del __child.parent` on the
argument object. -/
def childrenRemove (s : TState) (fuel p c : Nat) : Option TState :=
  if (kidsOf s p).any (fun m => pathOf s fuel m == pathOf s fuel c) then
    some (delParent
      { s with kids :=
          (p, (kidsOf s p).eraseP
            (fun m => pathOf s fuel m == pathOf s fuel c)) :: s.kids } c)
  else none

/-- Every id stored anywhere in the heap is below `next`, so `next` is
genuinely fresh.  This holds for every state built by the public
constructors and is used when reasoning about `_make_child`. -/
def Bounded (s : TState) : Prop :=
  (∀ e ∈ s.nodes, e.1 < s.next ∧ ∀ q, e.2.par = some q → q < s.next) ∧
  (∀ e ∈ s.kids, e.1 < s.next ∧ ∀ j ∈ e.2, j < s.next)

/-- The chain predicate for claim C1, listing ids leaf-first: the head's
parent is the next entry, and the last entry is parentless. -/
def isChainUp (s : TState) : List Nat → Prop
  | [] => True
  | [i] => parOf s i = none
  | i :: j :: rest => parOf s i = some j ∧ isChainUp s (j :: rest)

/-- The specification's rendering "s1/s2/.../sN" of a nonempty segment
list, root first. -/
def pathSpec : List String → String
  | [] => ""
  | [x] => x
  | x :: y :: rest => x ++ "/" ++ pathSpec (y :: rest)

/-- `CompositeEndpoint.__eq__` between two endpoint objects:
`other.path == self.path` (the `isinstance` guard succeeded). -/
def endpointEq (s : TState) (fuel a b : Nat) : Bool :=
  pathOf s fuel a == pathOf s fuel b

/-- A value handed to `CompositeEndpoint.__eq__`: either another endpoint
object or anything else. -/
inductive PyValue where
  | endpoint (i : Nat)
  | nonEndpoint
deriving DecidableEq, Repr

/-- `CompositeEndpoint.__eq__` in full: path comparison when `other` is a
`CompositeEndpoint`, otherwise `False`. -/
def endpointEqValue (s : TState) (fuel a : Nat) : PyValue → Bool
  | .endpoint b => endpointEq s fuel a b
  | .nonEndpoint => false

/-- `CompositeEndpoint.__hash__`: `hash(self.path)`, recomputed from the
live path on each call.  Python's `hash` on strings is an opaque fixed
function, abstracted as the parameter `h`. -/
def endpointHash (h : String → Nat) (s : TState) (fuel a : Nat) : Nat :=
  h (pathOf s fuel a)

/-! ### Response-cache key and `cachedmethod` (utils/caches.py,
decorators/caching.py) -/

/-- Python `sorted(kwargs.items())` for a keyword-argument dict.  Keys of a
dict are unique, so Python's lexicographic tuple order never reaches the
values and the sort is exactly a stable sort by key; insertion sort by key
computes the same unique key-ordered arrangement. -/
def sortKwargs (kwargs : List (String × String)) : List (String × String) :=
  List.insertionSort (fun a b => a.1 ≤ b.1) kwargs

/-- The comprehension `[f"{k!s}={v!s}" for k, v in sorted(kwargs.items())]`
in `generate_key`; values enter only through `str`, so they are modelled by
their string forms. -/
def renderKwargs (kwargs : List (String × String)) : List String :=
  (sortKwargs kwargs).map (fun kv => kv.1 ++ "=" ++ kv.2)

/-- The tuple built by `cachetools.keys.hashkey(*tags, *args, *[...])` as
invoked from `generate_key`, with the single tag `func.__name__.upper()`
installed by `cache_response` and the owning object (`self`, passed to the
key function by `cachetools.cachedmethod`) as the first positional
argument.  Remaining positional arguments are route strings. -/
structure CacheKey where
  tag : String
  owner : Nat
  args : List String
  kwtail : List String
deriving DecidableEq, Repr

/-- `generate_key(tag)` applied to `(self, *args, **kwargs)`. -/
def generate_key (tag : String) (owner : Nat) (args : List String)
    (kwargs : List (String × String)) : CacheKey :=
  ⟨tag, owner, args, renderKwargs kwargs⟩

/-- First-hit lookup in a cache mapping (`k in c` / `c[k]`). -/
def lookupKey {ν : Type} : List (CacheKey × ν) → CacheKey → Option ν
  | [], _ => none
  | (k, v) :: rest, key => if k = key then some v else lookupKey rest key

/-- Result of one pass through the `cachetools.cachedmethod` wrapper
installed by `cache_response`: the cache afterwards, the returned value,
and how many times the wrapped function (ultimately the underlying
request) was executed. -/
structure CachedCall (ν : Type) where
  cache : List (CacheKey × ν)
  result : ν
  executed : Nat
deriving DecidableEq, Repr

/-- One verb call through `cache_response` on an owner that was constructed
with a cache mapping: compute the key from the call signature; on a hit
return the stored response without executing, on a miss execute once and
store the result (`c[k] = v`). -/
def verbCallCached {ν : Type} (tag : String) (owner : Nat)
    (args : List String) (kwargs : List (String × String))
    (cache : List (CacheKey × ν)) (compute : ν) : CachedCall ν :=
  let k := generate_key tag owner args kwargs
  match lookupKey cache k with
  | some v => ⟨cache, v, 0⟩
  | none => ⟨(k, compute) :: cache, compute, 1⟩

/-! ### URL storage and resolution (apis/base_api.py) -/

/-- The `BaseAPI.url` setter:
`self._url = url + "/" if not url.endswith("/") else url`. -/
def storedUrl (u : String) : String :=
  if endswithSlash u then u else u ++ "/"

/-- Everything of `base` up to and including its last `'/'` (empty when
`base` has no slash): the base-path prefix kept by relative resolution. -/
def stripLastSegment (b : String) : String :=
  String.mk ((b.data.reverse.dropWhile (fun c => !(c == '/'))).reverse)

/-- `urllib.parse.urljoin(base, url)` restricted to the shapes
`BaseAPI.request` produces here: plain slash-separated paths with no
scheme, authority, query, fragment or dot segments.  An empty route keeps
the base; a route with a leading `'/'` is an absolute path and replaces the
entire base path; otherwise the route is appended after the base's last
`'/'`. -/
def urljoin (base url : String) : String :=
  if url = "" then base
  else if startswithSlash url then url
  else stripLastSegment base ++ url

/-! ### Connection decorator (decorators/connection.py) -/

/-- The exceptions `requests` can raise out of an exchange, as far as
`confirm_connection` distinguishes them.  `connectTimeout` models
`requests.exceptions.ConnectTimeout`, a subclass of both `ConnectionError`
and `Timeout`. -/
inductive ReqExc where
  | connection
  | timeout
  | connectTimeout
  | other
deriving DecidableEq, Repr

/-- Membership in the `except ConnectionError` clause. -/
def isConnectionError : ReqExc → Bool
  | .connection => true
  | .connectTimeout => true
  | _ => false

/-- Membership in the `except Timeout` clause. -/
def isTimeout : ReqExc → Bool
  | .timeout => true
  | .connectTimeout => true
  | _ => false

/-- Outcome of running a Python callable: a normal return or a raised
exception. -/
inductive PyOutcome (α ε : Type) where
  | returns (a : α)
  | raises (e : ε)
deriving DecidableEq, Repr

/-- The heterogeneous value `BaseAPI.request` hands back to its caller:
either the transport's response or a caught error object. -/
inductive ReturnValue (ρ : Type) where
  | response (r : ρ)
  | error (e : ReqExc)
deriving DecidableEq, Repr

/-- The `confirm_connection` wrapper around one exchange: a normal return
passes through unchanged; `ConnectionError` and `Timeout` are caught and
the error object itself is returned; anything else propagates. -/
def confirm_connection {ρ : Type} (exchange : PyOutcome ρ ReqExc) :
    PyOutcome (ReturnValue ρ) ReqExc :=
  match exchange with
  | .returns r => .returns (.response r)
  | .raises e =>
    if isConnectionError e then .returns (.error e)
    else if isTimeout e then .returns (.error e)
    else .raises e

/-! ### Transport retry configuration (adapters/transport_adapter.py) -/

/-- Module constants of `transport_adapter.py`. -/
def DEFAULT_RATE_LIMIT : Nat := 1

/-- Default timeout constant (unused by the claims, kept for fidelity). -/
def DEFAULT_TIMEOUT : Nat := 5

/-- `NUMBER_OF_RETRIES = 10`. -/
def NUMBER_OF_RETRIES : Nat := 10

/-- The fields of the `urllib3.util.Retry` object built by `make_retry`. -/
structure RetryConfig where
  total : Nat
  status_forcelist : List Nat
  allowed_methods : List String
  backoff_factor : Nat
deriving DecidableEq, Repr

/-- `make_retry`: the `HTTPStatus` members in `status_forcelist` are
`REQUEST_ENTITY_TOO_LARGE = 413`, `TOO_MANY_REQUESTS = 429`,
`INTERNAL_SERVER_ERROR = 500`, `BAD_GATEWAY = 502`,
`SERVICE_UNAVAILABLE = 503` and `GATEWAY_TIMEOUT = 504`. -/
def make_retry (rate_limit : Nat) : RetryConfig :=
  { total := NUMBER_OF_RETRIES,
    status_forcelist := [413, 429, 500, 502, 503, 504],
    allowed_methods :=
      ["HEAD", "GET", "POST", "PUT", "PATCH", "DELETE", "OPTIONS", "TRACE"],
    backoff_factor := rate_limit }

/-- `TransportAdapter.__init__` installs
`kwargs.setdefault("max_retries", make_retry(rate_limit))` with
`rate_limit` defaulting to `DEFAULT_RATE_LIMIT`. -/
def transportAdapterDefaultRetry : RetryConfig :=
  make_retry DEFAULT_RATE_LIMIT

/-- Whether the retry policy retries on a given HTTP status
(membership in `status_forcelist`). -/
def retriesOnStatus (cfg : RetryConfig) (status : Nat) : Bool :=
  cfg.status_forcelist.contains status

/-- Whether the retry policy applies to a given verb
(membership in `allowed_methods`). -/
def retriesOnMethod (cfg : RetryConfig) (verb : String) : Bool :=
  cfg.allowed_methods.contains verb

/-! ### Endpoint verb dispatch with allow-list (endpoints/base_endpoint.py) -/

/-- The `HTTPMethod` enum of `http_methods.py`. -/
inductive HTTPMethod where
  | CONNECT
  | HEAD
  | GET
  | POST
  | PUT
  | PATCH
  | DELETE
  | OPTIONS
  | TRACE
deriving DecidableEq, Repr

/-- `DEFAULT_METHODS` of `base_endpoint.py`. -/
def DEFAULT_METHODS : List HTTPMethod :=
  [.HEAD, .GET, .POST, .PUT, .PATCH, .DELETE, .OPTIONS, .TRACE]

/-- The error raised by a verb method whose verb is missing from
`self.methods` (`raise NotImplementedError`). -/
inductive EndpointExc where
  | notImplemented
deriving DecidableEq, Repr

/-- Result of one decorated endpoint verb call: the Python outcome, the
owner's cache afterwards, and the number of invocations of the owning API
client's verb method. -/
structure VerbDispatch (ρ : Type) where
  outcome : PyOutcome ρ EndpointExc
  cache : Option (List (CacheKey × ρ))
  apiCalls : Nat
deriving DecidableEq, Repr

/-- One call of a `@cache_response`-decorated verb method of
`BaseEndpoint`: `cachedmethod` first resolves `self.cache`; with no cache,
or on a miss, the inner method body runs, which checks
`if VERB not in self.methods: raise NotImplementedError` before invoking
the owning client's verb method; an exception propagates and nothing is
stored. -/
def endpointVerbCall {ρ : Type} (methods : List HTTPMethod)
    (verb : HTTPMethod) (cache : Option (List (CacheKey × ρ)))
    (key : CacheKey) (apiResult : ρ) : VerbDispatch ρ :=
  match cache with
  | none =>
    if verb ∈ methods then ⟨.returns apiResult, none, 1⟩
    else ⟨.raises .notImplemented, none, 0⟩
  | some c =>
    match lookupKey c key with
    | some v => ⟨.returns v, some c, 0⟩
    | none =>
      if verb ∈ methods then
        ⟨.returns apiResult, some ((key, apiResult) :: c), 1⟩
      else ⟨.raises .notImplemented, some c, 0⟩

/-! ### The `merge` utility (utils/mappings.py) -/

/-- A Python value as far as `_merge` inspects it: strings (standing for
any atomic value), dicts in insertion order, lists, and sets. -/
inductive PyVal where
  | str (s : String)
  | vdict (entries : List (String × PyVal))
  | vlist (xs : List PyVal)
  | vset (xs : List PyVal)
deriving Repr

mutual

/-- Python `==` on modelled values: structural equality. -/
def pyValBeq : PyVal → PyVal → Bool
  | .str a, .str b => a == b
  | .vdict a, .vdict b => pyEntriesBeq a b
  | .vlist a, .vlist b => pyListBeq a b
  | .vset a, .vset b => pyListBeq a b
  | _, _ => false

/-- Structural equality on dict entry lists. -/
def pyEntriesBeq : List (String × PyVal) → List (String × PyVal) → Bool
  | [], [] => true
  | (k1, v1) :: r1, (k2, v2) :: r2 =>
    k1 == k2 && pyValBeq v1 v2 && pyEntriesBeq r1 r2
  | _, _ => false

/-- Structural equality on value lists. -/
def pyListBeq : List PyVal → List PyVal → Bool
  | [], [] => true
  | x :: xs, y :: ys => pyValBeq x y && pyListBeq xs ys
  | _, _ => false

end

/-- Python dict read `a[key]` / `key in a` (dict keys are unique, first hit
suffices). -/
def dictLookup : List (String × PyVal) → String → Option PyVal
  | [], _ => none
  | (k, v) :: rest, key => if k = key then some v else dictLookup rest key

/-- Python dict write `a[key] = v`: replaces in place, keeping the key's
position, or appends a new key at the end. -/
def dictSet : List (String × PyVal) → String → PyVal → List (String × PyVal)
  | [], key, v => [(key, v)]
  | (k, v0) :: rest, key, v =>
    if k = key then (k, v) :: rest else (k, v0) :: dictSet rest key v

/-- Python list membership `x in xs` (by `==`). -/
def pyMem (x : PyVal) : List PyVal → Bool
  | [] => false
  | y :: ys => if pyValBeq y x then true else pyMem x ys

/-- Python `set.union`: the receiver's elements followed by the new ones. -/
def setUnion (a b : List PyVal) : List PyVal :=
  a ++ b.filter (fun x => !(pyMem x a))

mutual

/-- The inner `_merge(a, b, overwrite=...)` of `merge`: fold the entries of
`b` into `a`.  `.error ()` is the `ValueError` raised on a key conflict
with `overwrite` false.  The recursion through nested dicts, unbounded in
Python, is bounded by `fuel`. -/
def mergeDicts : Nat → Bool → List (String × PyVal) →
    List (String × PyVal) → Except Unit (List (String × PyVal))
  | 0, _, _, _ => .error ()
  | fuel + 1, ow, a, b => mergeEntries fuel ow a b

/-- The `for key in b` loop body of `_merge`. -/
def mergeEntries : Nat → Bool → List (String × PyVal) →
    List (String × PyVal) → Except Unit (List (String × PyVal))
  | _, _, a, [] => .ok a
  | fuel, ow, a, (key, vb) :: rest =>
    match dictLookup a key with
    | none => mergeEntries fuel ow (dictSet a key vb) rest
    | some va =>
      match va, vb with
      | .vdict da, .vdict db =>
        match mergeDicts fuel ow da db with
        | .error e => .error e
        | .ok m => mergeEntries fuel ow (dictSet a key (.vdict m)) rest
      | .vlist la, .vlist lb =>
        mergeEntries fuel ow (dictSet a key (.vlist (la ++ lb))) rest
      | .vset sa, .vset sb =>
        mergeEntries fuel ow (dictSet a key (.vset (setUnion sa sb))) rest
      | _, _ =>
        if ow then mergeEntries fuel ow (dictSet a key vb) rest
        else .error ()

end

/-- Python truthiness of a `*args` entry of `merge`: `None` and the empty
dict are falsy, a nonempty dict is truthy. -/
def truthyDict : Option (List (String × PyVal)) → Bool
  | none => false
  | some [] => false
  | some (_ :: _) => true

/-- The reduction loop of `merge`:
`reduce(lambda acc, cur: _merge(acc, cur, overwrite=overwrite) if cur else
acc, args, {})`. -/
def mergeFold (fuel : Nat) (ow : Bool) :
    List (String × PyVal) → List (Option (List (String × PyVal))) →
    Except Unit (List (String × PyVal))
  | acc, [] => .ok acc
  | acc, cur :: rest =>
    if truthyDict cur then
      match mergeDicts fuel ow acc (cur.getD []) with
      | .error e => .error e
      | .ok acc1 => mergeFold fuel ow acc1 rest
    else mergeFold fuel ow acc rest

/-- `merge(*args, overwrite=...)`: all arguments here are mappings or
`None`, so the `allinstance` guard never raises; after the reduction,
`return result if result else None` maps an empty result dict to `None`. -/
def pyMerge (fuel : Nat) (ow : Bool)
    (args : List (Option (List (String × PyVal)))) :
    Except Unit (Option (List (String × PyVal))) :=
  match mergeFold fuel ow [] args with
  | .error e => .error e
  | .ok [] => .ok none
  | .ok (e :: rest) => .ok (some (e :: rest))

/-- The headers argument `BaseEndpoint.get` forwards to the client:
`merge(self.headers, headers, overwrite=True)`. -/
def endpointMergedHeaders (fuel : Nat)
    (own caller : Option (List (String × PyVal))) :
    Except Unit (Option (List (String × PyVal))) :=
  pyMerge fuel true [own, caller]

/-- Concrete three-node heap used to witness the chain-path claim:
object 0 is the root "a", object 1 is "b" under 0, object 2 is "c"
under 1. -/
def chainState : TState :=
  { nodes := [(0, ⟨"a", none⟩), (1, ⟨"b", some 0⟩), (2, ⟨"c", some 1⟩)],
    kids := [(0, [1]), (1, [2]), (2, [])],
    next := 3 }

/-! ## Helper lemmas -/

/-- String concatenation is left-cancellative. -/
theorem string_append_right_inj (a b c : String) :
    a ++ b = a ++ c ↔ b = c := by
  constructor
  · intro h
    apply String.ext
    have h2 := congrArg String.data h
    simpa using h2
  · intro h
    rw [h]

/-- Unfolding `pathSpec` across a snoc: appending one more (leaf) segment
appends `"/" ++ x` to the rendered path. -/
theorem pathSpec_snoc (xs : List String) (x : String) (hne : xs ≠ []) :
    pathSpec (xs ++ [x]) = pathSpec xs ++ "/" ++ x := by
  induction xs with
  | nil => exact absurd rfl hne
  | cons y ys ih =>
    cases ys with
    | nil => rfl
    | cons z zs =>
      calc pathSpec ((y :: z :: zs) ++ [x])
          = y ++ "/" ++ pathSpec ((z :: zs) ++ [x]) := rfl
        _ = y ++ "/" ++ (pathSpec (z :: zs) ++ "/" ++ x) := by
              rw [ih (by simp)]
        _ = (y ++ "/" ++ pathSpec (z :: zs)) ++ "/" ++ x := by
              simp [String.append_assoc]
        _ = pathSpec (y :: z :: zs) ++ "/" ++ x := rfl

/-- A successful association-list lookup locates an actual entry. -/
theorem alookup_mem {α : Type} :
    ∀ (l : List (Nat × α)) (i : Nat) (v : α),
      alookup l i = some v → (i, v) ∈ l := by
  intro l
  induction l with
  | nil => intro i v h; simp [alookup] at h
  | cons e rest ih =>
    intro i v h
    obtain ⟨k, w⟩ := e
    by_cases hk : k = i
    · subst hk
      simp [alookup] at h
      simp [h]
    · simp [alookup, hk] at h
      exact List.mem_cons_of_mem _ (ih i v h)

/-- Lookups skip a prefix whose keys all differ from the requested id. -/
theorem alookup_prefix_skip {α : Type} :
    ∀ (pre l : List (Nat × α)) (i : Nat),
      (∀ e ∈ pre, e.1 ≠ i) → alookup (pre ++ l) i = alookup l i := by
  intro pre
  induction pre with
  | nil => intro l i _; rfl
  | cons e rest ih =>
    intro l i h
    obtain ⟨k, w⟩ := e
    have hk : k ≠ i := h (k, w) (List.mem_cons_self _ _)
    simp only [List.cons_append, alookup, if_neg hk]
    exact ih l i (fun e he => h e (List.mem_cons_of_mem _ he))

/-- In a bounded heap, parent links stay below `next`. -/
theorem parOf_lt_of_bounded {s : TState} (hb : Bounded s) {i q : Nat}
    (h : parOf s i = some q) : q < s.next := by
  unfold parOf at h
  cases hr : alookup s.nodes i with
  | none => rw [hr] at h; simp at h
  | some r =>
    rw [hr] at h
    simp at h
    exact (hb.1 (i, r) (alookup_mem _ _ _ hr)).2 q h

/-- In a bounded heap, members of any child set stay below `next`. -/
theorem kidsOf_lt_of_bounded {s : TState} (hb : Bounded s) {p m : Nat}
    (h : m ∈ kidsOf s p) : m < s.next := by
  unfold kidsOf at h
  cases hr : alookup s.kids p with
  | none => rw [hr] at h; simp at h
  | some l =>
    rw [hr] at h
    simp at h
    exact (hb.2 (p, l) (alookup_mem _ _ _ hr)).2 m h

/-- Extending the node heap with fresh-keyed entries (and arbitrary new kid
sets) leaves the path of every old object unchanged. -/
theorem pathOf_extend (s : TState) (hb : Bounded s)
    (pre : List (Nat × PyEndpoint)) (hpre : ∀ e ∈ pre, s.next ≤ e.1)
    (kidsx : List (Nat × List Nat)) (nx : Nat) :
    ∀ (f i : Nat), i < s.next →
      pathOf ⟨pre ++ s.nodes, kidsx, nx⟩ f i = pathOf s f i := by
  have hlook : ∀ i, i < s.next →
      alookup (pre ++ s.nodes) i = alookup s.nodes i := by
    intro i hi
    exact alookup_prefix_skip pre s.nodes i
      (fun e he => Nat.ne_of_gt (Nat.lt_of_lt_of_le hi (hpre e he)))
  have hseg : ∀ i, i < s.next →
      segOf ⟨pre ++ s.nodes, kidsx, nx⟩ i = segOf s i := by
    intro i hi; unfold segOf; rw [hlook i hi]
  have hpar : ∀ i, i < s.next →
      parOf ⟨pre ++ s.nodes, kidsx, nx⟩ i = parOf s i := by
    intro i hi; unfold parOf; rw [hlook i hi]
  intro f
  induction f with
  | zero =>
    intro i hi
    simp only [pathOf]
    exact hseg i hi
  | succ f ih =>
    intro i hi
    cases hq : parOf s i with
    | none =>
      have hp : parOf ⟨pre ++ s.nodes, kidsx, nx⟩ i = none := by
        rw [hpar i hi, hq]
      simp only [pathOf, hp, hq]
      exact hseg i hi
    | some q =>
      have hp : parOf ⟨pre ++ s.nodes, kidsx, nx⟩ i = some q := by
        rw [hpar i hi, hq]
      simp only [pathOf, hp, hq]
      rw [ih q (parOf_lt_of_bounded hb hq), hseg i hi]

/-- The chain-path lemma: along a leaf-first parent chain, the derived
`path` property renders exactly the root-first segments joined by `"/"`. -/
theorem pathOf_of_chain (s : TState) :
    ∀ (rest : List Nat) (leaf fuel : Nat),
      isChainUp s (leaf :: rest) → rest.length ≤ fuel →
      pathOf s fuel leaf = pathSpec (((leaf :: rest).map (segOf s)).reverse) := by
  intro rest
  induction rest with
  | nil =>
    intro leaf fuel hc _
    have hp : parOf s leaf = none := hc
    cases fuel with
    | zero => simp [pathOf, pathSpec]
    | succ f => simp [pathOf, hp, pathSpec]
  | cons j rest ih =>
    intro leaf fuel hc hf
    obtain ⟨hp, hc2⟩ := hc
    cases fuel with
    | zero => simp at hf
    | succ f =>
      have hf2 : rest.length ≤ f := Nat.le_of_succ_le_succ hf
      have hrec := ih j f hc2 hf2
      have hstep : pathOf s (f + 1) leaf = pathOf s f j ++ "/" ++ segOf s leaf := by
        simp [pathOf, hp]
      rw [hstep, hrec]
      have hrev : ((leaf :: j :: rest).map (segOf s)).reverse
          = ((j :: rest).map (segOf s)).reverse ++ [segOf s leaf] := by
        simp
      rw [hrev, pathSpec_snoc _ _ (by simp)]

/-! ## Claim theorems -/

/-- C1: for a chain of endpoint nodes attached root-to-leaf with segments
s1..sN, the leaf's derived `path` equals "s1/s2/.../sN"; and since `path`
is recomputed from the current parent link on every access, a node
reparented onto a new ancestor chain immediately reports the new chain's
path followed by its own segment, with no other operation. -/
theorem c1_path_derivation :
    (∀ (s : TState) (leaf : Nat) (rest : List Nat) (fuel : Nat),
      isChainUp s (leaf :: rest) → rest.length ≤ fuel →
      pathOf s fuel leaf = pathSpec (((leaf :: rest).map (segOf s)).reverse)) ∧
    (∀ (s : TState) (c q : Nat) (rest : List Nat) (fuel : Nat),
      isChainUp (setParent s c q) (q :: rest) → rest.length + 1 ≤ fuel →
      pathOf (setParent s c q) fuel c
        = pathSpec ((((q :: rest).map (segOf (setParent s c q))).reverse)
            ++ [segOf (setParent s c q) c])) := by
  constructor
  · intro s leaf rest fuel hc hf
    exact pathOf_of_chain s rest leaf fuel hc hf
  · intro s c q rest fuel hc hf
    have hpar : parOf (setParent s c q) c = some q := by
      simp [setParent, parOf, alookup]
    have hchain : isChainUp (setParent s c q) (c :: q :: rest) := ⟨hpar, hc⟩
    have h := pathOf_of_chain (setParent s c q) (q :: rest) c fuel hchain
      (by simpa using hf)
    rw [h]
    simp

/-- Witness for C1 at a concrete three-node chain a/b/c, then reparenting
the leaf c directly under the root a. -/
theorem c1_path_derivation_witness :
    (isChainUp chainState [2, 1, 0] ∧
      isChainUp (setParent chainState 2 0) [0]) ∧
    pathOf chainState 2 2 = "a/b/c" ∧
    pathOf (setParent chainState 2 0) 1 2 = "a/c" := by
  have hchain : isChainUp chainState [2, 1, 0] := ⟨rfl, rfl, rfl⟩
  have hchain2 : isChainUp (setParent chainState 2 0) [0] := rfl
  refine ⟨⟨hchain, hchain2⟩, ?_, ?_⟩
  · have h := c1_path_derivation.1 chainState 2 [1, 0] 2 hchain (by decide)
    rw [h]; decide
  · have h := c1_path_derivation.2 chainState 2 0 [] 1 hchain2 (by decide)
    rw [h]; decide

/-- A list whose `getLast?` is `some a` splits as a snoc on `a`. -/
theorem exists_append_of_getLast {α : Type} :
    ∀ (l : List α) (a : α), l.getLast? = some a → ∃ l2, l = l2 ++ [a] := by
  intro l
  induction l with
  | nil => intro a h; simp at h
  | cons x xs ih =>
    intro a h
    cases xs with
    | nil =>
      simp at h
      exact ⟨[], by rw [h]; rfl⟩
    | cons y ys =>
      rw [List.getLast?_cons_cons] at h
      obtain ⟨l2, hl2⟩ := ih a h
      exact ⟨x :: l2, by rw [List.cons_append, ← hl2]⟩

/-- The stored base URL always ends in the separator: it splits as
something followed by `"/"`. -/
theorem storedUrl_ends_with_separator (u : String) :
    ∃ v, storedUrl u = v ++ "/" := by
  unfold storedUrl
  cases h : endswithSlash u with
  | false => exact ⟨u, by simp⟩
  | true =>
    unfold endswithSlash at h
    have h2 : u.data.getLast? = some '/' := by
      simpa using h
    obtain ⟨l2, hl2⟩ := exists_append_of_getLast u.data '/' h2
    refine ⟨String.mk l2, ?_⟩
    simp only [if_pos]
    apply String.ext
    simpa using hl2

/-- Removing the final segment of a string that ends in `"/"` removes
nothing. -/
theorem stripLastSegment_append_slash (v : String) :
    stripLastSegment (v ++ "/") = v ++ "/" := by
  apply String.ext
  unfold stripLastSegment
  show (((v ++ "/").data.reverse.dropWhile (fun c => !(c == '/'))).reverse)
      = (v ++ "/").data
  have hd : (v ++ "/").data = v.data ++ ['/'] := by simp
  rw [hd]
  rw [List.reverse_append]
  show ((List.dropWhile (fun c => !(c == '/')) ('/' :: v.data.reverse)).reverse)
      = v.data ++ ['/']
  rw [List.dropWhile_cons_of_neg (by simp)]
  simp

/-- C4 counterexample: the claim asserts that joining base "a/" with the
absolute-looking route "/b" yields "a/b"; `urllib.parse.urljoin` instead
replaces the base path, producing "/b". -/
theorem c4_url_join_counterexample :
    storedUrl "a" = "a/" ∧
    urljoin (storedUrl "a") "/b" = "/b" ∧
    "/b" ≠ "a/b" := by
  refine ⟨by decide, ?_, by decide⟩
  have h1 : storedUrl "a" = "a/" := by decide
  rw [h1]
  decide

/-- C4 (amended): the stored base URL always ends with "/" (one is appended
at assignment if missing); a route without a leading separator resolves to
base ++ route (so "a/" with "b" gives "a/b"); but a route with a leading
separator replaces the base path entirely (so "a/" with "/b" gives "/b",
escaping the base path). -/
theorem c4_url_join_amended (u r : String) :
    (∃ v, storedUrl u = v ++ "/") ∧
    (startswithSlash r = false → r ≠ "" →
      urljoin (storedUrl u) r = storedUrl u ++ r) ∧
    (startswithSlash r = true → urljoin (storedUrl u) r = r) := by
  refine ⟨storedUrl_ends_with_separator u, ?_, ?_⟩
  · intro hs hne
    obtain ⟨v, hv⟩ := storedUrl_ends_with_separator u
    unfold urljoin
    rw [if_neg hne, hs]
    simp only [Bool.false_eq_true, if_false]
    rw [hv, stripLastSegment_append_slash]
  · intro hs
    have hne : r ≠ "" := by
      intro h0
      rw [h0] at hs
      simp [startswithSlash] at hs
    unfold urljoin
    rw [if_neg hne, hs]
    simp

/-- Witness for C4 (amended) at base "a" and route "b". -/
theorem c4_url_join_amended_witness :
    (startswithSlash "b" = false ∧ "b" ≠ "") ∧
    urljoin (storedUrl "a") "b" = storedUrl "a" ++ "b" :=
  ⟨⟨by decide, by decide⟩,
    (c4_url_join_amended "a" "b").2.1 (by decide) (by decide)⟩

/-- C5: `BaseAPI.request` is wrapped by `confirm_connection`; an exchange
that raises a connection error or a timeout error has the error object
returned as the call's value instead of the exception propagating, and an
exchange that returns does so with its response unchanged. -/
theorem c5_connection_errors_returned {ρ : Type} :
    (∀ (e : ReqExc), isConnectionError e = true ∨ isTimeout e = true →
      confirm_connection (PyOutcome.raises e : PyOutcome ρ ReqExc)
        = .returns (.error e)) ∧
    (∀ (r : ρ), confirm_connection (PyOutcome.returns r : PyOutcome ρ ReqExc)
        = .returns (.response r)) := by
  refine ⟨fun e he => ?_, fun r => rfl⟩
  cases e with
  | connection => rfl
  | timeout => rfl
  | connectTimeout => rfl
  | other => simp [isConnectionError, isTimeout] at he

/-- Witness for C5 on a concrete connection error and a concrete timeout. -/
theorem c5_connection_errors_returned_witness :
    (isConnectionError ReqExc.connection = true ∨
        isTimeout ReqExc.connection = true) ∧
    confirm_connection (PyOutcome.raises ReqExc.connection : PyOutcome Nat ReqExc)
      = .returns (.error ReqExc.connection) ∧
    confirm_connection (PyOutcome.raises ReqExc.timeout : PyOutcome Nat ReqExc)
      = .returns (.error ReqExc.timeout) ∧
    confirm_connection (PyOutcome.returns 7 : PyOutcome Nat ReqExc)
      = .returns (.response 7) :=
  ⟨Or.inl (by decide),
    (@c5_connection_errors_returned Nat).1 ReqExc.connection
      (Or.inl (by decide)),
    (@c5_connection_errors_returned Nat).1 ReqExc.timeout
      (Or.inr (by decide)),
    (@c5_connection_errors_returned Nat).2 7⟩

/-- C6: the transport adapter's default retry configuration retries exactly
on HTTP statuses 413, 429, 500, 502, 503 and 504, applies uniformly to all
eight supported verbs, and defaults to 10 attempts with backoff factor 1;
`make_retry` fixes everything but the backoff factor for any rate limit. -/
theorem c6_retry_configuration :
    (∀ status : Nat,
      retriesOnStatus transportAdapterDefaultRetry status = true ↔
        status ∈ ([413, 429, 500, 502, 503, 504] : List Nat)) ∧
    (∀ verb : String,
      retriesOnMethod transportAdapterDefaultRetry verb = true ↔
        verb ∈ (["HEAD", "GET", "POST", "PUT", "PATCH", "DELETE",
          "OPTIONS", "TRACE"] : List String)) ∧
    transportAdapterDefaultRetry.total = 10 ∧
    transportAdapterDefaultRetry.backoff_factor = 1 ∧
    (∀ rate_limit : Nat,
      (make_retry rate_limit).status_forcelist
          = [413, 429, 500, 502, 503, 504] ∧
      (make_retry rate_limit).allowed_methods
          = ["HEAD", "GET", "POST", "PUT", "PATCH", "DELETE",
             "OPTIONS", "TRACE"] ∧
      (make_retry rate_limit).total = 10 ∧
      (make_retry rate_limit).backoff_factor = rate_limit) := by
  refine ⟨fun status => ?_, fun verb => ?_, rfl, rfl,
    fun rate_limit => ⟨rfl, rfl, rfl, rfl⟩⟩
  · simp [retriesOnStatus, transportAdapterDefaultRetry, make_retry,
      List.contains_iff_exists_mem_beq, beq_iff_eq]
  · simp [retriesOnMethod, transportAdapterDefaultRetry, make_retry,
      List.contains_iff_exists_mem_beq, beq_iff_eq]

/-- Witness for C6 at status 502 and verb "POST". -/
theorem c6_retry_configuration_witness :
    retriesOnStatus transportAdapterDefaultRetry 502 = true ∧
    retriesOnMethod transportAdapterDefaultRetry "POST" = true ∧
    retriesOnStatus transportAdapterDefaultRetry 404 = false :=
  ⟨(c6_retry_configuration.1 502).mpr (by decide),
    ((c6_retry_configuration.2.1 "POST").mpr (by decide)),
    by
      have h := c6_retry_configuration.1 404
      cases hc : retriesOnStatus transportAdapterDefaultRetry 404 with
      | false => rfl
      | true => exact absurd (h.mp hc) (by decide)⟩

/-- C7: on a node whose allow-list excludes a verb, calling that verb's
method raises the not-implemented signal at the call site with zero
invocations of the owning client's verb method and the cache untouched,
while any allowed verb on the same node still goes through to the client. -/
theorem c7_method_allow_list {ρ : Type} (methods : List HTTPMethod)
    (verb : HTTPMethod) (cache : Option (List (CacheKey × ρ)))
    (key : CacheKey) (apiResult : ρ)
    (hverb : verb ∉ methods)
    (hmiss : ∀ c, cache = some c → lookupKey c key = none) :
    endpointVerbCall methods verb cache key apiResult
      = ⟨.raises .notImplemented, cache, 0⟩ ∧
    (∀ (verb2 : HTTPMethod) (key2 : CacheKey) (r2 : ρ),
      verb2 ∈ methods →
      (∀ c, cache = some c → lookupKey c key2 = none) →
      endpointVerbCall methods verb2 cache key2 r2
        = ⟨.returns r2, some ((key2, r2) :: cache.getD []), 1⟩ ∨
      (cache = none ∧
        endpointVerbCall methods verb2 cache key2 r2
          = ⟨.returns r2, none, 1⟩)) := by
  constructor
  · cases cache with
    | none => simp [endpointVerbCall, hverb]
    | some c =>
      have h := hmiss c rfl
      simp [endpointVerbCall, h, hverb]
  · intro verb2 key2 r2 hv2 hm2
    cases cache with
    | none =>
      right
      exact ⟨rfl, by simp [endpointVerbCall, hv2]⟩
    | some c =>
      left
      have h := hm2 c rfl
      simp [endpointVerbCall, h, hv2]

/-- Witness for C7: a node allowing only GET rejects POST without touching
the client, then serves GET normally. -/
theorem c7_method_allow_list_witness :
    (HTTPMethod.POST ∉ ([HTTPMethod.GET] : List HTTPMethod)) ∧
    endpointVerbCall [HTTPMethod.GET] HTTPMethod.POST
        (some ([] : List (CacheKey × Nat))) ⟨"POST", 0, [], []⟩ 7
      = ⟨.raises .notImplemented, some [], 0⟩ ∧
    endpointVerbCall [HTTPMethod.GET] HTTPMethod.GET
        (some ([] : List (CacheKey × Nat))) ⟨"GET", 0, [], []⟩ 5
      = ⟨.returns 5, some [(⟨"GET", 0, [], []⟩, 5)], 1⟩ := by
  have hmiss : ∀ c, (some ([] : List (CacheKey × Nat)) = some c) →
      lookupKey c (⟨"POST", 0, [], []⟩ : CacheKey) = none := by
    intro c hc
    cases hc
    rfl
  have h := c7_method_allow_list [HTTPMethod.GET] HTTPMethod.POST
    (some ([] : List (CacheKey × Nat))) ⟨"POST", 0, [], []⟩ 7
    (by decide) hmiss
  refine ⟨by decide, h.1, ?_⟩
  have h2 := h.2 HTTPMethod.GET ⟨"GET", 0, [], []⟩ 5 (by decide)
    (by intro c hc; cases hc; rfl)
  cases h2 with
  | inl h3 => exact h3
  | inr h3 => exact absurd h3.1 (by decide)

/-- Each argument of `merge` that is `None` or empty is skipped by the
reduction, leaving the accumulator untouched. -/
theorem mergeFold_all_falsy (fuel : Nat) (ow : Bool) :
    ∀ (args : List (Option (List (String × PyVal)))),
      (∀ a ∈ args, truthyDict a = false) →
      mergeFold fuel ow [] args = .ok [] := by
  intro args
  induction args with
  | nil => intro _; rfl
  | cons cur rest ih =>
    intro h
    have hcur : truthyDict cur = false := h cur (List.mem_cons_self _ _)
    simp only [mergeFold, hcur, Bool.false_eq_true, if_false]
    exact ih (fun a ha => h a (List.mem_cons_of_mem _ ha))

/-- C10: when every argument of `merge` is `None` or an empty mapping, the
result is `None` rather than an empty mapping; in particular an endpoint
verb call with no node-level and no caller-supplied headers forwards
`None`. -/
theorem c10_merge_empty_is_none (fuel : Nat) (ow : Bool)
    (args : List (Option (List (String × PyVal))))
    (h : ∀ a ∈ args, a = none ∨ a = some []) :
    pyMerge fuel ow args = .ok none ∧
    endpointMergedHeaders fuel none none = .ok none := by
  constructor
  · have hfold := mergeFold_all_falsy fuel ow args (by
      intro a ha
      cases h a ha with
      | inl h2 => rw [h2]; rfl
      | inr h2 => rw [h2]; rfl)
    unfold pyMerge
    rw [hfold]
  · rfl

/-- Witness for C10 with one `None` argument and one empty mapping. -/
theorem c10_merge_empty_is_none_witness :
    (∀ a ∈ ([none, some []] : List (Option (List (String × PyVal)))),
      a = none ∨ a = some []) ∧
    pyMerge 1 false ([none, some []] : List (Option (List (String × PyVal))))
      = .ok none ∧
    endpointMergedHeaders 1 none none = .ok none := by
  have h : ∀ a ∈ ([none, some []] : List (Option (List (String × PyVal)))),
      a = none ∨ a = some [] := by
    intro a ha
    rcases List.mem_cons.mp ha with h1 | h1
    · exact Or.inl h1
    · rcases List.mem_cons.mp h1 with h2 | h2
      · exact Or.inr h2
      · simp at h2
  have hc := c10_merge_empty_is_none 1 false [none, some []] h
  exact ⟨h, hc.1, hc.2⟩

/-- Heap with two distinct endpoint objects that have equal paths, for the
equality/hash witness. -/
def eqState : TState :=
  { nodes := [(0, ⟨"x", none⟩), (1, ⟨"x", none⟩)],
    kids := [(0, []), (1, [])],
    next := 2 }

/-- C8: `CompositeEndpoint.__eq__` holds between two nodes exactly when
their live effective paths are equal strings, a node never equals a
non-endpoint value, and `__hash__` is recomputed from the live path, so
equal nodes have equal hashes; all of this keeps holding in the state
produced by reparenting a node. -/
theorem c8_equality_and_hash (s : TState) (fuel a b c q : Nat)
    (h : String → Nat) :
    (endpointEqValue s fuel a (.endpoint b) = true ↔
      pathOf s fuel a = pathOf s fuel b) ∧
    endpointEqValue s fuel a .nonEndpoint = false ∧
    (endpointEqValue s fuel a (.endpoint b) = true →
      endpointHash h s fuel a = endpointHash h s fuel b) ∧
    (endpointEqValue (setParent s c q) fuel a (.endpoint b) = true ↔
      pathOf (setParent s c q) fuel a = pathOf (setParent s c q) fuel b) ∧
    (endpointEqValue (setParent s c q) fuel a (.endpoint b) = true →
      endpointHash h (setParent s c q) fuel a
        = endpointHash h (setParent s c q) fuel b) := by
  refine ⟨?_, rfl, ?_, ?_, ?_⟩
  · simp [endpointEqValue, endpointEq]
  · intro he
    have hp : pathOf s fuel a = pathOf s fuel b := by
      simpa [endpointEqValue, endpointEq] using he
    unfold endpointHash
    rw [hp]
  · simp [endpointEqValue, endpointEq]
  · intro he
    have hp : pathOf (setParent s c q) fuel a
        = pathOf (setParent s c q) fuel b := by
      simpa [endpointEqValue, endpointEq] using he
    unfold endpointHash
    rw [hp]

/-- Witness for C8 on two distinct objects with the same path. -/
theorem c8_equality_and_hash_witness :
    endpointEqValue eqState 1 0 (.endpoint 1) = true ∧
    endpointHash String.length eqState 1 0
      = endpointHash String.length eqState 1 1 ∧
    endpointEqValue eqState 1 0 .nonEndpoint = false :=
  ⟨by decide,
    (c8_equality_and_hash eqState 1 0 1 0 0 String.length).2.2.1 (by decide),
    (c8_equality_and_hash eqState 1 0 1 0 0 String.length).2.1⟩

/-- Erasing the first path-equal member from a child list with pairwise
distinct paths removes every occurrence of the argument. -/
theorem not_mem_eraseP_of_pairwise (f : Nat → String) :
    ∀ (l : List Nat) (c : Nat),
      l.Pairwise (fun a b => f a ≠ f b) → c ∈ l →
      c ∉ l.eraseP (fun m => f m == f c) := by
  intro l
  induction l with
  | nil => intro c _ hc; simp at hc
  | cons x xs ih =>
    intro c hpw hc
    obtain ⟨hx, hxs⟩ := List.pairwise_cons.mp hpw
    cases hfx : (f x == f c) with
    | true =>
      have heq : f x = f c := by simpa using hfx
      have her : (x :: xs).eraseP (fun m => f m == f c) = xs := by
        simp only [List.eraseP_cons, hfx, cond_true]
      rw [her]
      intro hcxs
      rcases List.mem_cons.mp hc with h1 | h1
      · subst h1
        exact hx c hcxs rfl
      · exact hx c h1 heq
    | false =>
      have hne : f x ≠ f c := by simpa using hfx
      have hcx : c ≠ x := by
        intro h0
        subst h0
        exact hne rfl
      have hcxs : c ∈ xs := by
        rcases List.mem_cons.mp hc with h1 | h1
        · exact absurd h1 hcx
        · exact h1
      have her : (x :: xs).eraseP (fun m => f m == f c)
          = x :: xs.eraseP (fun m => f m == f c) := by
        simp only [List.eraseP_cons, hfx, cond_false]
      rw [her]
      intro hmem
      rcases List.mem_cons.mp hmem with h1 | h1
      · exact hcx h1
      · exact ih c hxs hcxs h1

/-- The child set after `_Children.discard` is the original set with the
first path-equal member erased (whether or not the parent link was
cleared). -/
theorem kidsOf_discard (s : TState) (fuel p c : Nat) :
    kidsOf (childrenDiscard s fuel p c) p
      = (kidsOf s p).eraseP
          (fun m => pathOf s fuel m == pathOf s fuel c) := by
  unfold childrenDiscard
  split
  · simp [delParent, childrenErase, kidsOf, alookup]
  · simp [childrenErase, kidsOf, alookup]

/-- The parent link after `_Children.discard`: cleared exactly when it
pointed at the discarding parent. -/
theorem parOf_discard (s : TState) (fuel p c : Nat) :
    parOf (childrenDiscard s fuel p c) c
      = if parOf s c = some p then none else parOf s c := by
  have hrm : parOf (childrenErase s fuel p c) c = parOf s c := rfl
  unfold childrenDiscard
  rw [hrm]
  split
  · simp [delParent, parOf, alookup]
  · exact hrm

/-- C9: `_Children.discard` removes the child from the parent's set when
present and never raises when absent, and clears the child's parent
reference only when that reference currently points at this parent,
leaving a foreign parent reference untouched; `_Children.remove` raises
when the child is absent and otherwise clears the argument's parent
reference unconditionally. -/
theorem c9_discard_vs_remove (s : TState) (fuel p c : Nat)
    (hnodup : (kidsOf s p).Pairwise
      (fun a b => pathOf s fuel a ≠ pathOf s fuel b)) :
    (c ∈ kidsOf s p → c ∉ kidsOf (childrenDiscard s fuel p c) p) ∧
    ((∀ m ∈ kidsOf s p, pathOf s fuel m ≠ pathOf s fuel c) →
      kidsOf (childrenDiscard s fuel p c) p = kidsOf s p) ∧
    (parOf s c = some p → parOf (childrenDiscard s fuel p c) c = none) ∧
    (∀ q, parOf s c = some q → q ≠ p →
      parOf (childrenDiscard s fuel p c) c = some q) ∧
    (c ∈ kidsOf s p → ∃ s2, childrenRemove s fuel p c = some s2 ∧
      parOf s2 c = none) ∧
    ((∀ m ∈ kidsOf s p, pathOf s fuel m ≠ pathOf s fuel c) →
      childrenRemove s fuel p c = none) := by
  refine ⟨?_, ?_, ?_, ?_, ?_, ?_⟩
  · intro hc
    rw [kidsOf_discard]
    exact not_mem_eraseP_of_pairwise (pathOf s fuel) (kidsOf s p) c hnodup hc
  · intro habs
    rw [kidsOf_discard]
    apply List.eraseP_of_forall_not
    intro m hm
    simp [habs m hm]
  · intro hp
    rw [parOf_discard, if_pos hp]
  · intro q hq hqp
    rw [parOf_discard, if_neg (by rw [hq]; simp [hqp])]
    exact hq
  · intro hc
    have hany : (kidsOf s p).any
        (fun m => pathOf s fuel m == pathOf s fuel c) = true :=
      List.any_eq_true.mpr ⟨c, hc, by simp⟩
    unfold childrenRemove
    rw [if_pos hany]
    exact ⟨_, rfl, by simp [delParent, parOf, alookup]⟩
  · intro habs
    have hany : (kidsOf s p).any
        (fun m => pathOf s fuel m == pathOf s fuel c) = false :=
      List.any_eq_false.mpr (fun m hm => by simp [habs m hm])
    unfold childrenRemove
    rw [if_neg (by simp [hany])]

/-- Heap for the discard/remove witness: child 1 attached to parent 0. -/
def discardState : TState :=
  { nodes := [(0, ⟨"a", none⟩), (1, ⟨"b", some 0⟩)],
    kids := [(0, [1])],
    next := 2 }

/-- Heap where the member of 0's child set has a foreign parent 5. -/
def discardStateForeign : TState :=
  { nodes := [(0, ⟨"a", none⟩), (1, ⟨"b", some 5⟩), (5, ⟨"z", none⟩)],
    kids := [(0, [1])],
    next := 6 }

/-- Witness for C9: discarding the attached child 1 from parent 0 removes
it and clears its parent; discarding it when its parent is the foreign
node 5 leaves that reference; removing it clears the parent
unconditionally. -/
theorem c9_discard_vs_remove_witness :
    (1 ∈ kidsOf discardState 0 ∧
      1 ∉ kidsOf (childrenDiscard discardState 1 0 1) 0 ∧
      parOf (childrenDiscard discardState 1 0 1) 1 = none ∧
      ∃ s2, childrenRemove discardState 1 0 1 = some s2 ∧
        parOf s2 1 = none) ∧
    parOf (childrenDiscard discardStateForeign 1 0 1) 1 = some 5 := by
  have h1 := c9_discard_vs_remove discardState 1 0 1
    (by simp [discardState, kidsOf, alookup])
  have h2 := c9_discard_vs_remove discardStateForeign 1 0 1
    (by simp [discardStateForeign, kidsOf, alookup])
  exact ⟨⟨by decide, h1.1 (by decide), h1.2.2.1 (by decide),
    h1.2.2.2.2.1 (by decide)⟩,
    h2.2.2.2.1 5 (by decide) (by decide)⟩

/-- Sorting keyword arguments by key is invariant under permutation as
long as the keys are distinct (which they are, coming from a Python
dict). -/
theorem sortKwargs_perm_eq (l1 l2 : List (String × String))
    (hperm : l1.Perm l2) (hnd : (l1.map Prod.fst).Nodup) :
    sortKwargs l1 = sortKwargs l2 := by
  haveI htotal : IsTotal (String × String) (fun a b => a.1 ≤ b.1) :=
    ⟨fun a b => le_total a.1 b.1⟩
  haveI htrans : IsTrans (String × String) (fun a b => a.1 ≤ b.1) :=
    ⟨fun _ _ _ hab hbc => le_trans hab hbc⟩
  haveI hanti : IsAntisymm (String × String) (fun a b => a.1 < b.1) :=
    ⟨fun a b h1 h2 => absurd (lt_trans h1 h2) (lt_irrefl _)⟩
  have hs1 : List.Sorted (fun a b => a.1 ≤ b.1) (sortKwargs l1) :=
    List.sorted_insertionSort _ l1
  have hs2 : List.Sorted (fun a b => a.1 ≤ b.1) (sortKwargs l2) :=
    List.sorted_insertionSort _ l2
  have hp1 : (sortKwargs l1).Perm l1 := List.perm_insertionSort _ l1
  have hp2 : (sortKwargs l2).Perm l2 := List.perm_insertionSort _ l2
  have hchain : (sortKwargs l1).Perm (sortKwargs l2) :=
    (hp1.trans hperm).trans hp2.symm
  have hndkeys : ∀ (l : List (String × String)), (sortKwargs l).Perm l →
      (l.map Prod.fst).Nodup →
      List.Pairwise (fun a b => a.1 ≠ b.1) (sortKwargs l) := by
    intro l hp hnd2
    have : ((sortKwargs l).map Prod.fst).Nodup :=
      (hp.map Prod.fst).symm.nodup_iff.mp hnd2
    exact List.pairwise_map.mp this
  have hnd2 : (l2.map Prod.fst).Nodup :=
    (hperm.map Prod.fst).nodup_iff.mp hnd
  have hstrict : ∀ (l : List (String × String)),
      List.Sorted (fun a b => a.1 ≤ b.1) (sortKwargs l) →
      List.Pairwise (fun a b => a.1 ≠ b.1) (sortKwargs l) →
      List.Sorted (fun a b => a.1 < b.1) (sortKwargs l) := by
    intro l hle hne
    exact (hle.and hne).imp (fun hab => lt_of_le_of_ne hab.1 hab.2)
  exact List.eq_of_perm_of_sorted hchain
    (hstrict l1 hs1 (hndkeys l1 hp1 hnd))
    (hstrict l2 hs2 (hndkeys l2 hp2 hnd2))

/-- C3: with a cache mapping attached, two verb calls with the same verb
tag, owner and positional arguments, and keyword arguments that are equal
as key/value sets but supplied in different orders, produce the same cache
key (keyword arguments are rendered as sorted "key=value" strings), and
the underlying request executes exactly once across the two calls — the
second is served from the cache with the first call's result. -/
theorem c3_cache_key_determinism {ν : Type} (tag : String) (owner : Nat)
    (args : List String) (kw1 kw2 : List (String × String))
    (cache : List (CacheKey × ν)) (v1 v2 : ν)
    (hperm : kw1.Perm kw2) (hnd : (kw1.map Prod.fst).Nodup)
    (hmiss : lookupKey cache (generate_key tag owner args kw1) = none) :
    generate_key tag owner args kw1 = generate_key tag owner args kw2 ∧
    (verbCallCached tag owner args kw1 cache v1).executed
      + (verbCallCached tag owner args kw2
          (verbCallCached tag owner args kw1 cache v1).cache v2).executed
      = 1 ∧
    (verbCallCached tag owner args kw2
        (verbCallCached tag owner args kw1 cache v1).cache v2).result
      = (verbCallCached tag owner args kw1 cache v1).result := by
  have hkey : generate_key tag owner args kw1
      = generate_key tag owner args kw2 := by
    unfold generate_key renderKwargs
    rw [sortKwargs_perm_eq kw1 kw2 hperm hnd]
  have hcall1 : verbCallCached tag owner args kw1 cache v1
      = ⟨(generate_key tag owner args kw1, v1) :: cache, v1, 1⟩ := by
    simp [verbCallCached, hmiss]
  have hcall2 : verbCallCached tag owner args kw2
      ((generate_key tag owner args kw1, v1) :: cache) v2
      = ⟨(generate_key tag owner args kw1, v1) :: cache, v1, 0⟩ := by
    simp only [verbCallCached]
    rw [← hkey]
    simp [lookupKey]
  refine ⟨hkey, ?_, ?_⟩
  · simp [hcall1, hcall2]
  · simp [hcall1, hcall2]

/-- Witness for C3 with kwargs given in the two opposite orders over an
empty cache. -/
theorem c3_cache_key_determinism_witness :
    ([("a", "1"), ("b", "2")] : List (String × String)).Perm
      [("b", "2"), ("a", "1")] ∧
    generate_key "GET" 0 ["route"] [("a", "1"), ("b", "2")]
      = generate_key "GET" 0 ["route"] [("b", "2"), ("a", "1")] ∧
    (verbCallCached "GET" 0 ["route"] [("b", "2"), ("a", "1")]
        (verbCallCached "GET" 0 ["route"] [("a", "1"), ("b", "2")]
          ([] : List (CacheKey × String)) "resp1").cache "resp2").result
      = (verbCallCached "GET" 0 ["route"] [("a", "1"), ("b", "2")]
          ([] : List (CacheKey × String)) "resp1").result := by
  have hperm : ([("a", "1"), ("b", "2")] : List (String × String)).Perm
      [("b", "2"), ("a", "1")] := by decide
  have h := c3_cache_key_determinism "GET" 0 ["route"]
    [("a", "1"), ("b", "2")] [("b", "2"), ("a", "1")]
    ([] : List (CacheKey × String)) "resp1" "resp2"
    hperm (by decide) rfl
  exact ⟨hperm, h.1, h.2.2⟩

/-- C2: requesting the same child segment twice in a row from the same
parent (with no intervening mutation) returns the same child object both
times, and the parent's child set is no larger after the second request
than after the first.  The hypotheses say the segment carries no outer
separators (as segments never do), that the parent's current children are
really attached to it, and that the heap allocates fresh ids. -/
theorem c2_materialize_on_miss (s : TState) (fuel p : Nat) (x : String)
    (hx : stripSlashes x = x)
    (hpar : ∀ c ∈ kidsOf s p, parOf s c = some p)
    (hb : Bounded s) (hp : p < s.next) :
    (getChild (getChild s fuel p x).1 fuel p x).2 = (getChild s fuel p x).2 ∧
    (kidsOf (getChild (getChild s fuel p x).1 fuel p x).1 p).length
      = (kidsOf (getChild s fuel p x).1 p).length := by
  cases hg : childrenGet s p x with
  | some c =>
    simp [getChild, hg]
  | none =>
    have hnp : s.next ≠ p := (Nat.ne_of_lt hp).symm
    have hmiss : ∀ m ∈ kidsOf s p, segOf s m ≠ x := by
      have h1 := hg
      unfold childrenGet at h1
      rw [List.find?_eq_none] at h1
      intro m hm
      simpa using h1 m hm
    set s2 : TState :=
      ⟨(s.next, ⟨x, some p⟩) :: (s.next, ⟨x, none⟩) :: s.nodes,
        (s.next, []) :: s.kids, s.next + 1⟩ with hs2
    set s3 : TState :=
      ⟨(s.next, ⟨x, some p⟩) :: (s.next, ⟨x, none⟩) :: s.nodes,
        (p, s.next :: kidsOf s p) :: (s.next, []) :: s.kids,
        s.next + 1⟩ with hs3
    have hsp : setParent ⟨(s.next, ⟨x, none⟩) :: s.nodes,
        (s.next, []) :: s.kids, s.next + 1⟩ s.next p = s2 := by
      rw [hs2]
      unfold setParent
      simp [alookup]
    have hmk : makeChild s fuel p x
        = (childrenAdd ⟨(s.next, ⟨x, none⟩) :: s.nodes,
            (s.next, []) :: s.kids, s.next + 1⟩ fuel p s.next, s.next) := by
      unfold makeChild
      rw [hx]
    have hkids2 : kidsOf s2 p = kidsOf s p := by
      rw [hs2]
      simp [kidsOf, alookup, hnp]
    have hsegn : segOf s2 s.next = x := by
      rw [hs2]
      simp [segOf, alookup]
    have hparn : parOf s2 s.next = some p := by
      rw [hs2]
      simp [parOf, alookup]
    have hpath2 : ∀ (f i : Nat), i < s.next → pathOf s2 f i = pathOf s f i := by
      intro f i hi
      have hpre : ∀ e ∈ [((s.next : Nat), (⟨x, some p⟩ : PyEndpoint)),
          (s.next, ⟨x, none⟩)], s.next ≤ e.1 := by
        intro e he
        rcases List.mem_cons.mp he with h1 | h1
        · rw [h1]
        · rcases List.mem_cons.mp h1 with h2 | h2
          · rw [h2]
          · simp at h2
      have h := pathOf_extend s hb
        [(s.next, ⟨x, some p⟩), (s.next, ⟨x, none⟩)] hpre
        ((s.next, []) :: s.kids) (s.next + 1) f i hi
      rw [hs2]
      exact h
    have hdedup : (kidsOf s2 p).any
        (fun m => pathOf s2 fuel m == pathOf s2 fuel s.next) = false := by
      rw [hkids2, List.any_eq_false]
      intro m hm
      have hmlt : m < s.next := kidsOf_lt_of_bounded hb hm
      have hpm : parOf s m = some p := hpar m hm
      have hpathm : pathOf s2 fuel m = pathOf s fuel m := hpath2 fuel m hmlt
      cases fuel with
      | zero =>
        have h0 : pathOf s2 0 s.next = x := hsegn
        have h1 : pathOf s2 0 m = segOf s m := hpathm
        simp [h0, h1, hmiss m hm]
      | succ f =>
        have h0 : pathOf s2 (f + 1) s.next = pathOf s2 f p ++ "/" ++ x := by
          simp [pathOf, hparn, hsegn]
        have h1 : pathOf s2 f p = pathOf s f p := hpath2 f p hp
        have h2 : pathOf s (f + 1) m = pathOf s f p ++ "/" ++ segOf s m := by
          simp [pathOf, hpm]
        rw [hpathm, h2, h0, h1]
        simp only [beq_iff_eq]
        intro heq
        exact hmiss m hm
          ((string_append_right_inj (pathOf s f p ++ "/") _ _).mp heq)
    have hadd : childrenAdd ⟨(s.next, ⟨x, none⟩) :: s.nodes,
        (s.next, []) :: s.kids, s.next + 1⟩ fuel p s.next = s3 := by
      simp only [childrenAdd]
      rw [hsp, hdedup]
      simp only [Bool.false_eq_true, if_false]
      rw [hs3, hs2]
      simp only [TState.mk.injEq, true_and, and_true]
      rw [← hs2, hkids2]
    have hfirst : getChild s fuel p x = (s3, s.next) := by
      simp only [getChild, hg, hmk, hadd]
    have hsegn3 : segOf s3 s.next = x := by
      rw [hs3]
      simp [segOf, alookup]
    have hkids3 : kidsOf s3 p = s.next :: kidsOf s p := by
      rw [hs3]
      simp [kidsOf, alookup]
    have hget2 : childrenGet s3 p x = some s.next := by
      unfold childrenGet
      rw [hkids3]
      exact List.find?_cons_of_pos _ (by simp [hsegn3])
    have hsecond : getChild s3 fuel p x = (s3, s.next) := by
      simp [getChild, hget2]
    rw [hfirst]
    simp [hsecond]

/-- Parent with one existing child "users" (id 1) for the C2 witness. -/
def missState : TState :=
  { nodes := [(0, ⟨"svc", none⟩), (1, ⟨"users", some 0⟩)],
    kids := [(0, [1]), (1, [])],
    next := 2 }

/-- Witness for C2: requesting child "42" of node 0 twice returns the same
fresh object (id 2) twice and leaves the child set at two members. -/
theorem c2_materialize_on_miss_witness :
    (stripSlashes "42" = "42" ∧
      (∀ c ∈ kidsOf missState 0, parOf missState c = some 0) ∧
      Bounded missState ∧ 0 < missState.next) ∧
    (getChild (getChild missState 1 0 "42").1 1 0 "42").2
      = (getChild missState 1 0 "42").2 ∧
    (kidsOf (getChild (getChild missState 1 0 "42").1 1 0 "42").1 0).length
      = (kidsOf (getChild missState 1 0 "42").1 0).length := by
  have hbd : Bounded missState := by
    unfold Bounded
    exact ⟨by decide, by decide⟩
  have h := c2_materialize_on_miss missState 1 0 "42" (by decide)
    (by decide) hbd (by decide)
  exact ⟨⟨by decide, by decide, hbd, by decide⟩, h.1, h.2⟩

end Apytizer
